import Mathlib

/-!
Verification of the wine-quality dashboard (src/streamlit_app.py).

The program is a single-file dashboard over a fixed-schema CSV dataset
(eleven chemical-property columns, an integer `quality` rating and an
integer `Id`).  We embed the tabular data model shallowly:

* a cell is `Option ℚ` — `none` models a missing value (NaN); floats are
  embedded as rationals, on which the program's comparisons and equality
  tests are exact;
* a row is a record with one field per column of the fixed schema;
* a data frame is a list of rows together with a flag `hasId` recording
  whether the `Id` column is present (the cleaning pipeline drops it);
  when the column is absent every row stores `none` in its `id` field;
* fallible pandas operations (column access on a missing column, integer
  coercion of missing values) return `Except String`.

NaN semantics of the source's comparisons are preserved: a comparison
against a missing cell is `false`, so filters drop rows whose compared
cell is missing.
-/

namespace WineApp

/-- A table cell: `none` models a missing value (NaN). -/
abbrev Cell := Option ℚ

/-- One record of the wine-quality dataset, one field per CSV column. -/
structure Row where
  fixed_acidity : Cell
  volatile_acidity : Cell
  citric_acid : Cell
  residual_sugar : Cell
  chlorides : Cell
  free_sulfur_dioxide : Cell
  total_sulfur_dioxide : Cell
  density : Cell
  pH : Cell
  sulphates : Cell
  alcohol : Cell
  quality : Cell
  id : Cell
deriving DecidableEq

/-- A data frame: the ordered rows plus whether the `Id` column is present. -/
structure DataFrame where
  rows : List Row
  hasId : Bool
deriving DecidableEq

/-- Column names of the dataset schema. -/
inductive Col where
  | fixed_acidity | volatile_acidity | citric_acid | residual_sugar
  | chlorides | free_sulfur_dioxide | total_sulfur_dioxide | density
  | pH | sulphates | alcohol | quality | id
deriving DecidableEq

/-- Cell of a row at a named column. -/
def colVal (r : Row) : Col → Cell
  | .fixed_acidity => r.fixed_acidity
  | .volatile_acidity => r.volatile_acidity
  | .citric_acid => r.citric_acid
  | .residual_sugar => r.residual_sugar
  | .chlorides => r.chlorides
  | .free_sulfur_dioxide => r.free_sulfur_dioxide
  | .total_sulfur_dioxide => r.total_sulfur_dioxide
  | .density => r.density
  | .pH => r.pH
  | .sulphates => r.sulphates
  | .alcohol => r.alcohol
  | .quality => r.quality
  | .id => r.id

/-- The columns other than `Id`, in schema order. -/
def chemCols : List Col :=
  [.fixed_acidity, .volatile_acidity, .citric_acid, .residual_sugar,
   .chlorides, .free_sulfur_dioxide, .total_sulfur_dioxide, .density,
   .pH, .sulphates, .alcohol, .quality]

/-- The column list of a frame (`Id` last, when present). -/
def dfColumns (df : DataFrame) : List Col :=
  chemCols ++ (if df.hasId then [.id] else [])

/-! ## Filter Layer (src/streamlit_app.py lines 233-236)

`df[(df[quality] >= lo) & (df[quality] <= hi) & (df[alcohol] >= lo2) & (df[alcohol] <= hi2)]`.
pandas comparisons against NaN are false, hence the `none` cases below. -/

/-- Pandas-style `cell >= bound`: false on a missing cell. -/
def geB (c : Cell) (b : ℚ) : Bool :=
  match c with
  | none => false
  | some v => decide (b ≤ v)

/-- Pandas-style `cell <= bound`: false on a missing cell. -/
def leB (c : Cell) (b : ℚ) : Bool :=
  match c with
  | none => false
  | some v => decide (v ≤ b)

/-- Pandas-style `cell > bound`: false on a missing cell. -/
def gtB (c : Cell) (b : ℚ) : Bool :=
  match c with
  | none => false
  | some v => decide (b < v)

/-- Pandas-style `cell < bound`: false on a missing cell. -/
def ltB (c : Cell) (b : ℚ) : Bool :=
  match c with
  | none => false
  | some v => decide (v < b)

/-- The Filter Layer: rows whose `quality` lies in `[qlo, qhi]` (integer
bounds) and whose `alcohol` lies in `[alo, ahi]` (float bounds), both
inclusive, conjunctively (lines 233-236). -/
def filterLayer (df : DataFrame) (qlo qhi : ℤ) (alo ahi : ℚ) : DataFrame :=
  { df with rows := df.rows.filter (fun r =>
      geB r.quality (qlo : ℚ) && leB r.quality (qhi : ℚ) &&
      geB r.alcohol alo && leB r.alcohol ahi) }

theorem geB_iff (c : Cell) (b : ℚ) : geB c b = true ↔ ∃ v, c = some v ∧ b ≤ v := by
  cases c <;> simp [geB]

theorem leB_iff (c : Cell) (b : ℚ) : leB c b = true ↔ ∃ v, c = some v ∧ v ≤ b := by
  cases c <;> simp [leB]

theorem gtB_iff (c : Cell) (b : ℚ) : gtB c b = true ↔ ∃ v, c = some v ∧ b < v := by
  cases c <;> simp [gtB]

theorem ltB_iff (c : Cell) (b : ℚ) : ltB c b = true ↔ ∃ v, c = some v ∧ v < b := by
  cases c <;> simp [ltB]

/-- C1: the Filter Layer returns exactly the raw rows within both inclusive
ranges: its output is a sub-list of the raw rows, a row is returned iff it
belongs to the raw dataset, its `quality` lies within the integer quality
bounds and its `alcohol` lies within the alcohol bounds. -/
theorem filterLayer_exact (df : DataFrame) (qlo qhi : ℤ) (alo ahi : ℚ) :
    (filterLayer df qlo qhi alo ahi).rows.Sublist df.rows ∧
    ∀ r : Row, r ∈ (filterLayer df qlo qhi alo ahi).rows ↔
      r ∈ df.rows ∧
      (∃ q, r.quality = some q ∧ (qlo : ℚ) ≤ q ∧ q ≤ (qhi : ℚ)) ∧
      (∃ a, r.alcohol = some a ∧ alo ≤ a ∧ a ≤ ahi) := by
  refine ⟨List.filter_sublist _, fun r => ?_⟩
  simp only [filterLayer, List.mem_filter, Bool.and_eq_true, geB_iff, leB_iff]
  constructor
  · rintro ⟨hm, ⟨⟨⟨q1, hq1, h1⟩, q2, hq2, h2⟩, ⟨a1, ha1, h3⟩⟩, a2, ha2, h4⟩
    rw [hq1] at hq2; rw [ha1] at ha2
    cases Option.some.inj hq2; cases Option.some.inj ha2
    exact ⟨hm, ⟨q1, hq1, h1, h2⟩, ⟨a1, ha1, h3, h4⟩⟩
  · rintro ⟨hm, ⟨q, hq, hql, hqh⟩, ⟨a, ha, hal, hah⟩⟩
    exact ⟨hm, ⟨⟨⟨q, hq, hql⟩, ⟨q, hq, hqh⟩⟩, ⟨a, ha, hal⟩⟩, ⟨a, ha, hah⟩⟩

/-! ## Cleaning Pipeline (src/streamlit_app.py lines 252-256)

```
df_cleaned = df_filtered.dropna().drop_duplicates()
df_cleaned[Id] = df_cleaned[Id].astype(int)
df_cleaned = df_cleaned[(df_cleaned[fixed acidity] > 0) & (df_cleaned[fixed acidity] < 15)]
df_cleaned = df_cleaned.drop(columns=[Id])
```
-/

/-- A row with no missing value in any column of the frame (the `id` cell
counts only when the `Id` column is present).  This is the row predicate of
pandas `dropna()`. -/
def rowComplete (hasId : Bool) (r : Row) : Bool :=
  r.fixed_acidity.isSome && r.volatile_acidity.isSome && r.citric_acid.isSome &&
  r.residual_sugar.isSome && r.chlorides.isSome && r.free_sulfur_dioxide.isSome &&
  r.total_sulfur_dioxide.isSome && r.density.isSome && r.pH.isSome &&
  r.sulphates.isSome && r.alcohol.isSome && r.quality.isSome &&
  (!hasId || r.id.isSome)

/-- pandas `drop_duplicates()` on a row list: keep the first occurrence of
each row value, drop every later exact duplicate.  `seen` accumulates the
row values already emitted. -/
def dedupAux [DecidableEq α] (seen : List α) : List α → List α
  | [] => []
  | x :: xs => if x ∈ seen then dedupAux seen xs else x :: dedupAux (x :: seen) xs

/-- pandas `drop_duplicates()` (keep first occurrence). -/
def dedupRows [DecidableEq α] (l : List α) : List α := dedupAux [] l

/-- Truncation of a rational toward zero, the effect of pandas
`astype(int)` on a float value. -/
def truncQ (q : ℚ) : ℤ := q.num.tdiv (q.den : ℤ)

/-- Integer coercion of the `id` cell of one row. -/
def coerceId (r : Row) : Row :=
  { r with id := r.id.map (fun v => ((truncQ v : ℤ) : ℚ)) }

/-- pandas `df[Id] = df[Id].astype(int)`: fails when the `Id` column is
absent (KeyError) or contains a missing value (ValueError); otherwise
truncates every `Id` cell to an integer. -/
def astypeIdInt (df : DataFrame) : Except String DataFrame :=
  if df.hasId then
    if df.rows.all (fun r => r.id.isSome) then
      Except.ok { df with rows := df.rows.map coerceId }
    else Except.error "ValueError: cannot convert non-finite values to integer"
  else Except.error "KeyError: Id"

/-- The acidity bound predicate of line 255: `0 < fixed acidity < 15`. -/
def acidOk (r : Row) : Bool :=
  gtB r.fixed_acidity 0 && ltB r.fixed_acidity 15

/-- Line 255: keep only rows with `0 < fixed acidity < 15`. -/
def acidityFilter (df : DataFrame) : DataFrame :=
  { df with rows := df.rows.filter acidOk }

/-- pandas `drop(columns=[Id])`: remove the `Id` column. -/
def dropIdColumn (df : DataFrame) : DataFrame :=
  { rows := df.rows.map (fun r => { r with id := none }), hasId := false }

/-- The Cleaning Pipeline, transliterated statement by statement from
lines 252-256 of the source. -/
def clean (df_filtered : DataFrame) : Except String DataFrame :=
  let df1 : DataFrame :=
    { df_filtered with rows := df_filtered.rows.filter (rowComplete df_filtered.hasId) }
  let df2 : DataFrame := { df1 with rows := dedupRows df1.rows }
  match astypeIdInt df2 with
  | Except.error e => Except.error e
  | Except.ok df3 =>
      let df4 : DataFrame := { df3 with rows := df3.rows.filter acidOk }
      Except.ok (dropIdColumn df4)

/-! Specification-side composition (§3 of the spec): missing-value drop →
duplicate drop → Id coercion → acidity bound filter → Id column drop. -/

/-- Spec step: drop every row with any missing field. -/
def missingValueDrop (df : DataFrame) : DataFrame :=
  { df with rows := df.rows.filter (rowComplete df.hasId) }

/-- Spec step: drop exact-duplicate rows, keeping first occurrences. -/
def duplicateDrop (df : DataFrame) : DataFrame :=
  { df with rows := dedupRows df.rows }

/-- Spec step: coerce the `Id` column to integer. -/
def idCoercion (df : DataFrame) : Except String DataFrame := astypeIdInt df

/-- Spec step: retain only rows with `0 < fixed acidity < 15`. -/
def acidityBoundFilter (df : DataFrame) : DataFrame := acidityFilter df

/-- Spec step: drop the `Id` column. -/
def idColumnDrop (df : DataFrame) : DataFrame := dropIdColumn df

/-- The spec's cleaning sequence as the composition of the five named
steps, in the fixed order of §3. -/
def cleanSpec (df : DataFrame) : Except String DataFrame :=
  (idCoercion (duplicateDrop (missingValueDrop df))).map
    (fun d => idColumnDrop (acidityBoundFilter d))

/-- C2: the Cleaning Pipeline equals the composition, in this fixed order,
of the missing-value drop, the duplicate drop (assessed before `Id`
coercion), the `Id` integer coercion, the fixed-acidity bound filter and
the `Id` column drop. -/
theorem clean_eq_cleanSpec (df : DataFrame) : clean df = cleanSpec df := by
  unfold clean cleanSpec idCoercion duplicateDrop missingValueDrop
    acidityBoundFilter idColumnDrop acidityFilter
  simp only []
  cases h : astypeIdInt { rows := dedupRows (List.filter (rowComplete df.hasId) df.rows),
                          hasId := df.hasId } <;>
    simp [h, Except.map]

/-! ## Structural lemmas about the pipeline steps -/

/-- A row with its `id` cell cleared, i.e. its non-`Id` content. -/
def stripId (r : Row) : Row := { r with id := none }

theorem stripId_coerceId (r : Row) : stripId (coerceId r) = stripId r := rfl

theorem acidOk_coerceId (r : Row) : acidOk (coerceId r) = acidOk r := rfl

theorem dedupAux_sublist [DecidableEq α] (seen : List α) (l : List α) :
    (dedupAux seen l).Sublist l := by
  induction l generalizing seen with
  | nil => simp [dedupAux]
  | cons x xs ih =>
      by_cases hx : x ∈ seen
      · simp only [dedupAux, if_pos hx]
        exact (ih seen).trans (List.sublist_cons_self x xs)
      · simp only [dedupAux, if_neg hx]
        exact (ih (x :: seen)).cons₂ x

theorem mem_dedupAux [DecidableEq α] (seen l : List α) (x : α) :
    x ∈ dedupAux seen l ↔ x ∈ l ∧ x ∉ seen := by
  induction l generalizing seen with
  | nil => simp [dedupAux]
  | cons y ys ih =>
      by_cases hy : y ∈ seen
      · rw [dedupAux, if_pos hy, ih]
        simp only [List.mem_cons]
        constructor
        · rintro ⟨h1, h2⟩; exact ⟨Or.inr h1, h2⟩
        · rintro ⟨rfl | h1, h2⟩
          · exact absurd hy h2
          · exact ⟨h1, h2⟩
      · rw [dedupAux, if_neg hy]
        simp only [List.mem_cons, ih]
        by_cases hxy : x = y
        · subst hxy; simp [hy]
        · simp [hxy]

theorem dedupRows_sublist [DecidableEq α] (l : List α) : (dedupRows l).Sublist l :=
  dedupAux_sublist [] l

theorem mem_dedupRows [DecidableEq α] (l : List α) (x : α) :
    x ∈ dedupRows l ↔ x ∈ l := by
  rw [dedupRows, mem_dedupAux]; simp

theorem astypeIdInt_ok_elim (df df3 : DataFrame) (h : astypeIdInt df = Except.ok df3) :
    df.hasId = true ∧ df3 = { df with rows := df.rows.map coerceId } := by
  unfold astypeIdInt at h
  by_cases h1 : df.hasId
  · rw [if_pos h1] at h
    by_cases h2 : df.rows.all (fun r => r.id.isSome)
    · rw [if_pos h2] at h
      exact ⟨h1, (Except.ok.inj h).symm⟩
    · rw [if_neg h2] at h; exact absurd h (by simp)
  · rw [if_neg h1] at h; exact absurd h (by simp)

theorem clean_ok_elim (df out : DataFrame) (h : clean df = Except.ok out) :
    ∃ df3, astypeIdInt { rows := dedupRows (df.rows.filter (rowComplete df.hasId)),
                         hasId := df.hasId } = Except.ok df3 ∧
      out = dropIdColumn { df3 with rows := df3.rows.filter acidOk } := by
  unfold clean at h
  simp only [] at h
  cases h3 : astypeIdInt { rows := dedupRows (List.filter (rowComplete df.hasId) df.rows),
                           hasId := df.hasId } with
  | error e => rw [h3] at h; exact absurd h (by simp)
  | ok df3 =>
      rw [h3] at h
      exact ⟨df3, rfl, (Except.ok.inj h).symm⟩

/-- C6: a Cleaned Dataset produced by the Cleaning Pipeline never contains
an `Id` column. -/
theorem clean_no_Id_column (df out : DataFrame) (h : clean df = Except.ok out) :
    out.hasId = false := by
  obtain ⟨df3, _, rfl⟩ := clean_ok_elim df out h
  rfl

/-- C5: every row of a Cleaned Dataset has a present `fixed acidity` value
strictly between 0 and 15. -/
theorem clean_fixed_acidity_bounds (df out : DataFrame) (h : clean df = Except.ok out)
    (r : Row) (hr : r ∈ out.rows) :
    ∃ a, r.fixed_acidity = some a ∧ 0 < a ∧ a < 15 := by
  obtain ⟨df3, _, rfl⟩ := clean_ok_elim df out h
  simp only [dropIdColumn, List.mem_map, List.mem_filter] at hr
  obtain ⟨r', ⟨_, hacid⟩, rfl⟩ := hr
  rw [acidOk, Bool.and_eq_true, gtB_iff, ltB_iff] at hacid
  obtain ⟨⟨a1, ha1, h1⟩, a2, ha2, h2⟩ := hacid
  rw [ha1] at ha2
  cases Option.some.inj ha2
  exact ⟨a1, ha1, h1, h2⟩

/-- C10: the Cleaning Pipeline never invents rows and never alters values
outside the `Id` column: the cleaned rows, all with `Id` cleared, form a
sub-list (same relative order, no additions, no value changes) of the
input rows with `Id` cleared; and every input row that is complete and
within the acidity bounds survives in the output (duplicate removal keeps
the first occurrence of each row value, per the defining recursion of
`dedupAux`). -/
theorem clean_rows_sublist (df out : DataFrame) (h : clean df = Except.ok out) :
    out.rows.Sublist (df.rows.map stripId) ∧
    ∀ r ∈ df.rows, rowComplete df.hasId r = true → acidOk r = true →
      stripId r ∈ out.rows := by
  obtain ⟨df3, h3, rfl⟩ := clean_ok_elim df out h
  obtain ⟨_, rfl⟩ := astypeIdInt_ok_elim _ _ h3
  constructor
  · simp only [dropIdColumn]
    have h1 : ((((dedupRows (df.rows.filter (rowComplete df.hasId))).map coerceId).filter
          acidOk).map (fun r => { r with id := none })).Sublist
        (((dedupRows (df.rows.filter (rowComplete df.hasId))).map coerceId).map
          (fun r => { r with id := none })) :=
      (List.filter_sublist _).map _
    have h2 : ((dedupRows (df.rows.filter (rowComplete df.hasId))).map coerceId).map
          (fun r => { r with id := none }) =
        (dedupRows (df.rows.filter (rowComplete df.hasId))).map stripId := by
      rw [List.map_map]; rfl
    have h4 : ((dedupRows (df.rows.filter (rowComplete df.hasId))).map stripId).Sublist
        ((df.rows.filter (rowComplete df.hasId)).map stripId) :=
      (dedupRows_sublist _).map _
    have h5 : ((df.rows.filter (rowComplete df.hasId)).map stripId).Sublist
        (df.rows.map stripId) :=
      (List.filter_sublist _).map _
    rw [h2] at h1
    exact (h1.trans h4).trans h5
  · intro r hmem hcomp hacid
    have hr2 : r ∈ dedupRows (df.rows.filter (rowComplete df.hasId)) := by
      rw [mem_dedupRows, List.mem_filter]; exact ⟨hmem, hcomp⟩
    have hr3 : coerceId r ∈ (dedupRows (df.rows.filter (rowComplete df.hasId))).map coerceId :=
      List.mem_map_of_mem coerceId hr2
    have hr4 : coerceId r ∈
        ((dedupRows (df.rows.filter (rowComplete df.hasId))).map coerceId).filter acidOk := by
      rw [List.mem_filter]
      exact ⟨hr3, by rw [acidOk_coerceId]; exact hacid⟩
    exact List.mem_map_of_mem (fun r => { r with id := none }) hr4

/-! ## Concrete frames used by witnesses and counterexamples -/

/-- A complete, in-bounds sample row. -/
def wRow : Row :=
  ⟨some 7, some 1, some 1, some 2, some 1, some 10, some 20, some 1,
   some 3, some 1, some 10, some 6, some 3⟩

/-- A one-row raw frame with `Id` present. -/
def wDF : DataFrame := ⟨[wRow], true⟩

/-- The cleaned result of `wDF`. -/
def wOut : DataFrame := ⟨[stripId wRow], false⟩

theorem clean_no_Id_column_witness :
    clean wDF = Except.ok wOut ∧ wOut.hasId = false :=
  ⟨rfl, clean_no_Id_column wDF wOut rfl⟩

theorem clean_fixed_acidity_bounds_witness :
    clean wDF = Except.ok wOut ∧ stripId wRow ∈ wOut.rows ∧
      ∃ a, (stripId wRow).fixed_acidity = some a ∧ 0 < a ∧ a < 15 :=
  ⟨rfl, by decide, clean_fixed_acidity_bounds wDF wOut rfl (stripId wRow) (by decide)⟩

theorem clean_rows_sublist_witness :
    clean wDF = Except.ok wOut ∧
      (wOut.rows.Sublist (wDF.rows.map stripId) ∧
       ∀ r ∈ wDF.rows, rowComplete wDF.hasId r = true → acidOk r = true →
         stripId r ∈ wOut.rows) :=
  ⟨rfl, clean_rows_sublist wDF wOut rfl⟩

/-! ## Re-running the Cleaning Pipeline on its own output (C4)

The output of the pipeline has no `Id` column, and rows that differed
only in `Id` become exact duplicates of each other once the column is
dropped.  Re-running the pipeline on the output therefore fails at the
`astype(int)` step (KeyError on the missing column), and the output
itself can contain duplicate rows, so the pipeline is not idempotent. -/

/-- A complete, in-bounds row with `Id` 1. -/
def dRowA : Row :=
  ⟨some 7, some 1, some 1, some 2, some 1, some 10, some 20, some 1,
   some 3, some 1, some 10, some 5, some 1⟩

/-- The same record content with `Id` 2: a distinct row that differs from
`dRowA` only in the `Id` column. -/
def dRowB : Row :=
  ⟨some 7, some 1, some 1, some 2, some 1, some 10, some 20, some 1,
   some 3, some 1, some 10, some 5, some 2⟩

/-- A raw frame whose two rows differ only in `Id`. -/
def dDF : DataFrame := ⟨[dRowA, dRowB], true⟩

/-- Cleaning `dDF` keeps both rows (they are not duplicates while `Id` is
present) and then drops `Id`, leaving two identical rows. -/
def dOut : DataFrame := ⟨[stripId dRowA, stripId dRowA], false⟩

/-- C4 counterexample: at the concrete frame `dDF` the pipeline output is
`dOut`, yet re-running the pipeline on `dOut` does not return `dOut` (it
fails on the missing `Id` column), and `dOut` even contains an exact
duplicate row; so the Cleaning Pipeline is not idempotent as claimed. -/
theorem clean_not_idempotent :
    clean dDF = Except.ok dOut ∧
    clean dOut ≠ Except.ok dOut ∧
    ¬ dOut.rows.Nodup := by
  refine ⟨rfl, ?_, by decide⟩
  rw [show clean dOut = Except.error "KeyError: Id" from rfl]
  intro h
  exact Except.noConfusion h

theorem rowComplete_false_of (b : Bool) (r : Row) (h : rowComplete b r = true) :
    rowComplete false r = true := by
  simp only [rowComplete, Bool.and_eq_true] at h ⊢
  tauto

theorem clean_out_mem (df out : DataFrame) (h : clean df = Except.ok out)
    (r : Row) (hr : r ∈ out.rows) :
    rowComplete false r = true ∧ acidOk r = true := by
  obtain ⟨df3, h3, rfl⟩ := clean_ok_elim df out h
  obtain ⟨hid, rfl⟩ := astypeIdInt_ok_elim _ _ h3
  simp only [dropIdColumn, List.mem_map, List.mem_filter] at hr
  obtain ⟨r', ⟨hr', hacid⟩, rfl⟩ := hr
  obtain ⟨r0, hr0, rfl⟩ := hr'
  rw [mem_dedupRows, List.mem_filter] at hr0
  constructor
  · have : rowComplete false { coerceId r0 with id := none } = rowComplete false r0 := rfl
    rw [this]
    exact rowComplete_false_of df.hasId r0 hr0.2
  · have : acidOk { coerceId r0 with id := none } = acidOk (coerceId r0) := rfl
    rw [this]
    exact hacid

/-- C4 amended: the Cleaning Pipeline is not idempotent as a whole.  What
holds of its output: it has no missing values and no out-of-range
fixed-acidity rows (the missing-value drop and the acidity bound filter
leave it unchanged), but re-running the full cleaning sequence on it
fails at the `Id` coercion step because the `Id` column has been dropped,
and duplicate rows (rows that differed only in `Id`) may remain. -/
theorem clean_reclean_behavior (df out : DataFrame) (h : clean df = Except.ok out) :
    missingValueDrop out = out ∧ acidityBoundFilter out = out ∧
    ∃ e, clean out = Except.error e := by
  have hId : out.hasId = false := clean_no_Id_column df out h
  refine ⟨?_, ?_, "KeyError: Id", ?_⟩
  · have hrows : out.rows.filter (rowComplete out.hasId) = out.rows := by
      rw [List.filter_eq_self]
      intro r hr
      rw [hId]
      exact (clean_out_mem df out h r hr).1
    show ({ out with rows := out.rows.filter (rowComplete out.hasId) } : DataFrame) = out
    rw [hrows]
  · have hrows : out.rows.filter acidOk = out.rows := by
      rw [List.filter_eq_self]
      intro r hr
      exact (clean_out_mem df out h r hr).2
    show ({ out with rows := out.rows.filter acidOk } : DataFrame) = out
    rw [hrows]
  · unfold clean
    simp only []
    unfold astypeIdInt
    rw [show ({ rows := dedupRows (out.rows.filter (rowComplete out.hasId)),
                hasId := out.hasId } : DataFrame).hasId = false from hId]
    rfl

theorem clean_reclean_behavior_witness :
    clean dDF = Except.ok dOut ∧
      (missingValueDrop dOut = dOut ∧ acidityBoundFilter dOut = dOut ∧
       ∃ e, clean dOut = Except.error e) :=
  ⟨rfl, clean_reclean_behavior dDF dOut rfl⟩

/-! ## Session caching of the Cleaned Dataset (src/streamlit_app.py lines 250-259)

```
if df_cleaned not in st.session_state:
    ...clean...
    st.session_state.df_cleaned = df_cleaned
df_cleaned = st.session_state.df_cleaned
```
Each script re-run receives the current filtered frame and the session
state; the cleaning runs only when the session slot is empty. -/

/-- One script re-run of the cleaning-and-caching block: given the session
slot and the current filtered frame, returns the displayed cleaned frame
and the new session slot. -/
def cleanStep (sess : Option DataFrame) (dff : DataFrame) :
    Except String DataFrame × Option DataFrame :=
  match sess with
  | some cached => (Except.ok cached, some cached)
  | none =>
      match clean dff with
      | Except.ok c => (Except.ok c, some c)
      | Except.error e => (Except.error e, none)

/-- A sequence of script re-runs, each with its own (possibly changed)
filtered frame, threading the session slot. -/
def runSession (sess : Option DataFrame) :
    List DataFrame → List (Except String DataFrame) × Option DataFrame
  | [] => ([], sess)
  | d :: ds =>
      let p := cleanStep sess d
      let q := runSession p.2 ds
      (p.1 :: q.1, q.2)

theorem runSession_cached (c : DataFrame) (ds : List DataFrame) :
    runSession (some c) ds = (ds.map (fun _ => Except.ok c), some c) := by
  induction ds with
  | nil => rfl
  | cons d ds ih => simp [runSession, cleanStep, ih]

/-- C3: once the first re-run computes and stores the Cleaned Dataset,
every later re-run — whatever its filtered input, in particular with
changed filter bounds — returns the cached frame unchanged and never
recomputes cleaning. -/
theorem session_cache_stale (d0 c : DataFrame) (h : clean d0 = Except.ok c)
    (ds : List DataFrame) :
    runSession none (d0 :: ds) =
      (Except.ok c :: ds.map (fun _ => Except.ok c), some c) := by
  simp [runSession, cleanStep, h, runSession_cached]

theorem session_cache_stale_witness :
    clean wDF = Except.ok wOut ∧
      runSession none (wDF :: [dDF]) =
        (Except.ok wOut :: [dDF].map (fun _ => Except.ok wOut), some wOut) :=
  ⟨rfl, session_cache_stale wDF wOut rfl [dDF]⟩

/-! ## Chart gallery sub-views (src/streamlit_app.py lines 104-163)

The box plot (lines 107-123) and the pair plot (lines 148-163) take a
user-chosen column subset and are guarded by `if selected_features:` /
`if pairplot_features:` — Python truthiness, i.e. a non-empty list.  The
body selects the chosen columns from the cleaned frame
(`df_cleaned[selection]`, a KeyError when a name is not a column) and
renders one chart; the pair plot additionally colours by the `quality`
column of the selected sub-frame (a KeyError when `quality` was not
selected). -/

/-- pandas `df[selection]`: the chosen columns of every row; KeyError when
a selected name is not a column of the frame. -/
def selectColumns (df : DataFrame) (sel : List Col) :
    Except String (List (List Cell)) :=
  if sel.all (fun c => c ∈ dfColumns df) then
    Except.ok (df.rows.map (fun r => sel.map (colVal r)))
  else Except.error "KeyError: column not found"

/-- A rendered chart: the selected feature names and their data. -/
structure Chart where
  features : List Col
  data : List (List Cell)
deriving DecidableEq

/-- The box-plot sub-view (lines 107-123): `none` when no chart is
rendered. -/
def boxplotView (df : DataFrame) (sel : List Col) :
    Except String (Option Chart) :=
  if sel.isEmpty then Except.ok none
  else (selectColumns df sel).map (fun d => some ⟨sel, d⟩)

/-- The pair-plot sub-view (lines 148-163): `none` when no chart is
rendered; colouring by `quality` requires `quality` among the selected
columns. -/
def pairplotView (df : DataFrame) (sel : List Col) :
    Except String (Option Chart) :=
  if sel.isEmpty then Except.ok none
  else
    match selectColumns df sel with
    | Except.error e => Except.error e
    | Except.ok d =>
        if Col.quality ∈ sel then Except.ok (some ⟨sel, d⟩)
        else Except.error "KeyError: quality"

/-- C8: with an empty column selection both user-configurable chart
sub-views render nothing and raise no error. -/
theorem empty_selection_renders_nothing (df : DataFrame) :
    boxplotView df [] = Except.ok none ∧ pairplotView df [] = Except.ok none :=
  ⟨rfl, rfl⟩

/-! ## Descriptive statistics view (src/streamlit_app.py lines 66-69)

```
desc_stats = df_cleaned.describe().T
desc_stats[median] = df_cleaned.median()
desc_stats = desc_stats[[mean, median, std, min, 25%, 50%, 75%, max]]
```
`describe()` reports, per numeric column and skipping missing values:
count, mean, std (sample standard deviation), min, the linearly
interpolated 25%/50%/75% quantiles and max; every statistic of an empty
column except count is NaN.  The value of a statistic is represented
exactly: `nan`, a rational, or the square root of a rational (std). -/

/-- The value of one statistic: missing (NaN), an exact rational, or the
square root of a rational (the sample standard deviation, whose square is
rational). -/
inductive StatVal where
  | nan
  | num (q : ℚ)
  | sqrtOf (q : ℚ)
deriving DecidableEq

/-- The statistic labels occurring in lines 66-68. -/
inductive StatKey where
  | count | mean | std | min | q25 | q50 | q75 | max | median
deriving DecidableEq, BEq

/-- The present (non-missing) values of a column, as `mean`, `median`,
`describe` etc. see them (pandas skips NaN). -/
def colValues (df : DataFrame) (c : Col) : List ℚ :=
  df.rows.filterMap (fun r => colVal r c)

/-- Column mean; NaN on an empty column. -/
def meanVal (l : List ℚ) : StatVal :=
  if l.length = 0 then .nan else .num (l.sum / (l.length : ℚ))

/-- Linearly interpolated `p`-quantile of a column (pandas default
interpolation); NaN on an empty column. -/
def quantileVal (l : List ℚ) (p : ℚ) : StatVal :=
  match List.insertionSort (fun a b : ℚ => a ≤ b) l with
  | [] => .nan
  | x :: xs =>
      let s := x :: xs
      let pos : ℚ := p * ((l.length : ℚ) - 1)
      let i : ℕ := pos.floor.toNat
      let lo := s.getD i x
      let hi := s.getD (i + 1) lo
      .num (lo + (pos - (pos.floor : ℚ)) * (hi - lo))

/-- Column minimum; NaN on an empty column. -/
def minVal (l : List ℚ) : StatVal :=
  match List.insertionSort (fun a b : ℚ => a ≤ b) l with
  | [] => .nan
  | x :: _ => .num x

/-- Column maximum; NaN on an empty column. -/
def maxVal (l : List ℚ) : StatVal :=
  match (List.insertionSort (fun a b : ℚ => a ≤ b) l).getLast? with
  | none => .nan
  | some x => .num x

/-- Sample standard deviation (ddof = 1): NaN when fewer than two values,
otherwise the square root of the sample variance. -/
def stdVal (l : List ℚ) : StatVal :=
  if l.length < 2 then .nan
  else
    .sqrtOf ((l.map (fun x => (x - l.sum / (l.length : ℚ)) ^ 2)).sum /
      ((l.length : ℚ) - 1))

/-- Column median (pandas `median()` = interpolated 50% quantile). -/
def medianVal (l : List ℚ) : StatVal := quantileVal l (1 / 2)

/-- One transposed `describe()` row: the eight statistics of a column, in
describe order. -/
def describeCol (l : List ℚ) : List (StatKey × StatVal) :=
  [(.count, .num (l.length : ℚ)), (.mean, meanVal l), (.std, stdVal l),
   (.min, minVal l), (.q25, quantileVal l (1 / 4)), (.q50, quantileVal l (1 / 2)),
   (.q75, quantileVal l (3 / 4)), (.max, maxVal l)]

/-- Lines 66-68: `describe().T` per column, the appended `median` column,
then the selection of the eight displayed statistics, in display order; a
KeyError if a selected statistic is absent. -/
def statsTable (df : DataFrame) : Except String (List (Col × List StatVal)) :=
  (dfColumns df).mapM (fun c =>
    let vals := colValues df c
    let assoc := describeCol vals ++ [(StatKey.median, medianVal vals)]
    match [StatKey.mean, StatKey.median, StatKey.std, StatKey.min,
           StatKey.q25, StatKey.q50, StatKey.q75, StatKey.max].mapM
        (fun k => assoc.lookup k) with
    | some vs => Except.ok (c, vs)
    | none => Except.error "KeyError: statistic")

/-- What the statistics tab shows.  The `table` constructor is what the
code produces (lines 66-69).  `noData` is Modelled from the spec: the
explicit no-data state that §7 of the spec asks for on an empty dataset;
no code in src/streamlit_app.py produces it. -/
inductive StatsRender where
  | noData
  | table (t : List (Col × List StatVal))
deriving DecidableEq

/-- The Descriptive Statistics tab over the cleaned frame. -/
def descriptiveStatisticsView (df_cleaned : DataFrame) : Except String StatsRender :=
  (statsTable df_cleaned).map StatsRender.table

/-- The statistics table shown for an empty cleaned frame: every displayed
statistic of every column is NaN. -/
def emptyStatsTable : List (Col × List StatVal) :=
  chemCols.map (fun c => (c, List.replicate 8 StatVal.nan))

/-- C9 counterexample: on the empty cleaned frame the statistics view does
not render the explicit no-data state the claim describes; it renders the
ordinary table, filled with NaN entries. -/
theorem empty_stats_not_noData :
    descriptiveStatisticsView ⟨[], false⟩ ≠ Except.ok StatsRender.noData ∧
    descriptiveStatisticsView ⟨[], false⟩ = Except.ok (StatsRender.table emptyStatsTable) := by
  refine ⟨?_, rfl⟩
  rw [show descriptiveStatisticsView ⟨[], false⟩ =
      Except.ok (StatsRender.table emptyStatsTable) from rfl]
  intro h
  have := Except.ok.inj h
  exact absurd this (by decide)

/-- C9 amended: when the filter bounds exclude every row, the empty
Filtered Dataset is a valid input, not an error: the Cleaning Pipeline
returns an empty cleaned frame without failing and the statistics view
renders without failing — but as the ordinary statistics table with every
entry NaN, not as an explicit no-data state. -/
theorem empty_filter_result_flow (df : DataFrame) (qlo qhi : ℤ) (alo ahi : ℚ)
    (hId : df.hasId = true)
    (hempty : (filterLayer df qlo qhi alo ahi).rows = []) :
    clean (filterLayer df qlo qhi alo ahi) = Except.ok ⟨[], false⟩ ∧
    descriptiveStatisticsView ⟨[], false⟩ =
      Except.ok (StatsRender.table emptyStatsTable) := by
  have hFeq : filterLayer df qlo qhi alo ahi = (⟨[], true⟩ : DataFrame) := by
    have h1 : (filterLayer df qlo qhi alo ahi).hasId = df.hasId := rfl
    cases hc : filterLayer df qlo qhi alo ahi with
    | mk rows hasId =>
        rw [hc] at hempty h1
        simp only [] at hempty h1
        rw [hempty, h1, hId]
  rw [hFeq]
  exact ⟨rfl, rfl⟩

theorem empty_filter_result_flow_witness :
    wDF.hasId = true ∧ (filterLayer wDF 0 0 0 20).rows = [] ∧
      (clean (filterLayer wDF 0 0 0 20) = Except.ok ⟨[], false⟩ ∧
       descriptiveStatisticsView ⟨[], false⟩ =
         Except.ok (StatsRender.table emptyStatsTable)) :=
  ⟨rfl, by decide, empty_filter_result_flow wDF 0 0 0 20 rfl (by decide)⟩

/-! ## CSV export and re-import (src/streamlit_app.py lines 241-247)

`df_filtered.to_csv(index=False).encode(utf-8)` writes a header line and
one line per row, newline-terminated, cells comma-separated; a missing
value prints as the empty cell; a numeric value prints as a (sign,
integer part, optional fractional part) decimal literal.  Floating-point
values always have a finite decimal expansion, which the embedding states
as a hypothesis on the rational cell values (`cellDec`).  The parser
models `pandas.read_csv` on such a stream.  Byte streams are `List Char`.
-/

/-- Little-endian base-10 digits of `n`, with explicit structural fuel
(`natDigits` supplies `n` itself, which bounds the digit count). -/
def natDigitsAux : ℕ → ℕ → List ℕ
  | 0, _ => []
  | _ + 1, 0 => []
  | fuel + 1, n + 1 => (n + 1) % 10 :: natDigitsAux fuel ((n + 1) / 10)

/-- Little-endian base-10 digits of `n` (empty for 0). -/
def natDigits (n : ℕ) : List ℕ := natDigitsAux n n

/-- Value of a little-endian base-10 digit list. -/
def digitsToNat : List ℕ → ℕ
  | [] => 0
  | d :: ds => d + 10 * digitsToNat ds

theorem digitsToNat_natDigitsAux (fuel : ℕ) :
    ∀ n, n ≤ fuel → digitsToNat (natDigitsAux fuel n) = n := by
  induction fuel with
  | zero => intro n hn; interval_cases n; rfl
  | succ f ih =>
      intro n hn
      match n with
      | 0 => rfl
      | m + 1 =>
          have hdiv : (m + 1) / 10 ≤ f := by
            have h1 : (m + 1) / 10 < m + 1 := Nat.div_lt_self (Nat.succ_pos m) (by norm_num)
            omega
          show (m + 1) % 10 + 10 * digitsToNat (natDigitsAux f ((m + 1) / 10)) = m + 1
          rw [ih _ hdiv]
          omega

theorem digitsToNat_natDigits (n : ℕ) : digitsToNat (natDigits n) = n :=
  digitsToNat_natDigitsAux n n le_rfl

theorem natDigitsAux_lt_ten (fuel : ℕ) :
    ∀ n d, d ∈ natDigitsAux fuel n → d < 10 := by
  induction fuel with
  | zero => intro n d hd; simp [natDigitsAux] at hd
  | succ f ih =>
      intro n d hd
      match n with
      | 0 => simp [natDigitsAux] at hd
      | m + 1 =>
          rcases List.mem_cons.mp hd with rfl | hd
          · exact Nat.mod_lt _ (by norm_num)
          · exact ih _ _ hd

theorem natDigits_lt_ten (n d : ℕ) (hd : d ∈ natDigits n) : d < 10 :=
  natDigitsAux_lt_ten n n d hd

theorem natDigitsAux_length (fuel : ℕ) :
    ∀ n e, n ≤ fuel → n < 10 ^ e → (natDigitsAux fuel n).length ≤ e := by
  induction fuel with
  | zero =>
      intro n e hn _; interval_cases n; simp [natDigitsAux]
  | succ f ih =>
      intro n e hn he
      match n with
      | 0 => simp [natDigitsAux]
      | m + 1 =>
          match e with
          | 0 => simp at he
          | e + 1 =>
              show ((m + 1) % 10 :: natDigitsAux f ((m + 1) / 10)).length ≤ e + 1
              have hdiv : (m + 1) / 10 ≤ f := by
                have h1 : (m + 1) / 10 < m + 1 := Nat.div_lt_self (Nat.succ_pos m) (by norm_num)
                omega
              have hlt : (m + 1) / 10 < 10 ^ e := by
                rw [Nat.div_lt_iff_lt_mul (by norm_num)]
                calc m + 1 < 10 ^ (e + 1) := he
                  _ = 10 ^ e * 10 := by ring
              simpa using ih _ e hdiv hlt

theorem natDigits_ne_nil (n : ℕ) (hn : n ≠ 0) : natDigits n ≠ [] := by
  match n with
  | 0 => exact absurd rfl hn
  | m + 1 => simp [natDigits, natDigitsAux]

/-- The numeric value of a decimal digit character. -/
def charDigit (c : Char) : ℕ := c.toNat - 48

theorem charDigit_digitChar (d : ℕ) (hd : d < 10) :
    charDigit (Nat.digitChar d) = d := by
  interval_cases d <;> rfl

theorem isDigit_digitChar (d : ℕ) (hd : d < 10) :
    (Nat.digitChar d).isDigit = true := by
  interval_cases d <;> rfl

/-- Splitting a character list at every occurrence of a separator; the
result always has one more piece than there are separators. -/
def splitSep (c : Char) : List Char → List (List Char)
  | [] => [[]]
  | x :: xs =>
      if x = c then [] :: splitSep c xs
      else
        match splitSep c xs with
        | [] => [[x]]
        | y :: ys => (x :: y) :: ys

theorem splitSep_ne_nil (c : Char) (l : List Char) : splitSep c l ≠ [] := by
  match l with
  | [] => simp [splitSep]
  | x :: xs =>
      rw [splitSep]
      by_cases hx : x = c
      · simp [hx]
      · rw [if_neg hx]
        match h : splitSep c xs with
        | [] => simp
        | y :: ys => simp

theorem splitSep_of_not_mem (c : Char) (l : List Char) (hc : c ∉ l) :
    splitSep c l = [l] := by
  induction l with
  | nil => rfl
  | cons x xs ih =>
      have hx : x ≠ c := fun h => hc (h ▸ List.mem_cons_self x xs)
      have hxs : c ∉ xs := fun h => hc (List.mem_cons_of_mem x h)
      rw [splitSep, if_neg hx, ih hxs]

theorem splitSep_append (c : Char) (l rest : List Char) (hc : c ∉ l) :
    splitSep c (l ++ c :: rest) = l :: splitSep c rest := by
  induction l with
  | nil => simp [splitSep]
  | cons x xs ih =>
      have hx : x ≠ c := fun h => hc (h ▸ List.mem_cons_self x xs)
      have hxs : c ∉ xs := fun h => hc (List.mem_cons_of_mem x h)
      rw [List.cons_append, splitSep, if_neg hx, ih hxs]

/-- Joining pieces with a separator character (no trailing separator). -/
def joinSep (c : Char) : List (List Char) → List Char
  | [] => []
  | [x] => x
  | x :: y :: ys => x ++ c :: joinSep c (y :: ys)

theorem splitSep_joinSep (c : Char) (xs : List (List Char)) (hne : xs ≠ [])
    (hc : ∀ x ∈ xs, c ∉ x) : splitSep c (joinSep c xs) = xs := by
  induction xs with
  | nil => exact absurd rfl hne
  | cons x ys ih =>
      match ys with
      | [] =>
          exact splitSep_of_not_mem c x (hc x (List.mem_cons_self x []))
      | y :: ys =>
          rw [joinSep, splitSep_append c x _ (hc x (List.mem_cons_self x _)),
            ih (by simp) (fun z hz => hc z (List.mem_cons_of_mem x hz))]

theorem mem_joinSep (c : Char) (xs : List (List Char)) (ch : Char)
    (h : ch ∈ joinSep c xs) : ch = c ∨ ∃ x ∈ xs, ch ∈ x := by
  induction xs with
  | nil => simp [joinSep] at h
  | cons x ys ih =>
      match ys with
      | [] =>
          exact Or.inr ⟨x, List.mem_cons_self x _, h⟩
      | y :: ys =>
          rw [joinSep] at h
          rcases List.mem_append.mp h with h | h
          · exact Or.inr ⟨x, List.mem_cons_self x _, h⟩
          · rcases List.mem_cons.mp h with rfl | h
            · exact Or.inl rfl
            · rcases ih h with h | ⟨z, hz, hch⟩
              · exact Or.inl h
              · exact Or.inr ⟨z, List.mem_cons_of_mem x hz, hch⟩

/-- Newline-terminated lines, as pandas `to_csv` writes them. -/
def linesJoin : List (List Char) → List Char
  | [] => []
  | l :: ls => l ++ Char.ofNat 10 :: linesJoin ls

theorem splitSep_linesJoin (ls : List (List Char))
    (h : ∀ l ∈ ls, Char.ofNat 10 ∉ l) :
    splitSep (Char.ofNat 10) (linesJoin ls) = ls ++ [[]] := by
  induction ls with
  | nil => rfl
  | cons l ls ih =>
      rw [linesJoin, splitSep_append _ _ _ (h l (List.mem_cons_self l _)),
        ih (fun x hx => h x (List.mem_cons_of_mem l hx))]
      rfl

/-- Decimal display of a natural number. -/
def natStr (n : ℕ) : List Char :=
  if n = 0 then ['0'] else ((natDigits n).map Nat.digitChar).reverse

/-- Decimal display of a fractional part `f < 10 ^ e`, padded with leading
zeros to exactly `e` digits. -/
def fracStr (f e : ℕ) : List Char :=
  ((natDigits f ++ List.replicate (e - (natDigits f).length) 0).map Nat.digitChar).reverse

/-- Value of a non-empty all-digit character list (big-endian). -/
def digitsVal (cs : List Char) : Option ℕ :=
  if cs ≠ [] ∧ cs.all Char.isDigit = true then
    some (digitsToNat ((cs.map charDigit).reverse))
  else none

theorem natStr_chars (n : ℕ) (ch : Char) (h : ch ∈ natStr n) : ch.isDigit = true := by
  unfold natStr at h
  by_cases hn : n = 0
  · rw [if_pos hn] at h
    simp at h
    rw [h]; decide
  · rw [if_neg hn] at h
    rw [List.mem_reverse] at h
    obtain ⟨d, hd, rfl⟩ := List.mem_map.mp h
    exact isDigit_digitChar d (natDigits_lt_ten n d hd)

theorem natStr_ne_nil (n : ℕ) : natStr n ≠ [] := by
  unfold natStr
  by_cases hn : n = 0
  · rw [if_pos hn]; simp
  · rw [if_neg hn]
    simp only [ne_eq, List.reverse_eq_nil_iff, List.map_eq_nil_iff]
    exact natDigits_ne_nil n hn

theorem digitsVal_natStr (n : ℕ) : digitsVal (natStr n) = some n := by
  by_cases hn : n = 0
  · subst hn; rfl
  · have hne : natStr n ≠ [] := natStr_ne_nil n
    have hall : (natStr n).all Char.isDigit = true :=
      List.all_eq_true.mpr (fun c hc => natStr_chars n c hc)
    unfold digitsVal
    rw [if_pos ⟨hne, hall⟩]
    congr 1
    unfold natStr
    rw [if_neg hn, ← List.map_reverse, List.reverse_reverse, List.map_map]
    have h2 : (natDigits n).map (charDigit ∘ Nat.digitChar) = natDigits n := by
      refine (List.map_congr_left ?_).trans (List.map_id _)
      exact fun d hd => charDigit_digitChar d (natDigits_lt_ten n d hd)
    rw [h2, digitsToNat_natDigits]

theorem digitsToNat_append_zeros (D : List ℕ) (k : ℕ) :
    digitsToNat (D ++ List.replicate k 0) = digitsToNat D := by
  induction D with
  | nil =>
      simp only [List.nil_append, digitsToNat]
      induction k with
      | zero => rfl
      | succ m ih => simpa [List.replicate_succ, digitsToNat] using ih
  | cons d ds ih => simp [digitsToNat, ih]

theorem fracStr_length (f e : ℕ) (hf : f < 10 ^ e) : (fracStr f e).length = e := by
  have hlen : (natDigits f).length ≤ e := natDigitsAux_length f f e le_rfl hf
  unfold fracStr
  rw [List.length_reverse, List.length_map, List.length_append, List.length_replicate]
  omega

theorem fracStr_chars (f e : ℕ) (ch : Char) (h : ch ∈ fracStr f e) :
    ch.isDigit = true := by
  unfold fracStr at h
  rw [List.mem_reverse] at h
  obtain ⟨d, hd, rfl⟩ := List.mem_map.mp h
  rcases List.mem_append.mp hd with hd | hd
  · exact isDigit_digitChar d (natDigits_lt_ten f d hd)
  · rw [List.eq_of_mem_replicate hd]; decide

theorem digitsVal_fracStr (f e : ℕ) (hf : f < 10 ^ e) (he : e ≠ 0) :
    digitsVal (fracStr f e) = some f := by
  have hne : fracStr f e ≠ [] := by
    intro h
    have := fracStr_length f e hf
    rw [h] at this
    simp at this
    exact he this.symm
  have hall : (fracStr f e).all Char.isDigit = true :=
    List.all_eq_true.mpr (fun c hc => fracStr_chars f e c hc)
  unfold digitsVal
  rw [if_pos ⟨hne, hall⟩]
  congr 1
  unfold fracStr
  rw [← List.map_reverse, List.reverse_reverse, List.map_map]
  have hlt : ∀ d ∈ natDigits f ++ List.replicate (e - (natDigits f).length) 0, d < 10 := by
    intro d hd
    rcases List.mem_append.mp hd with hd | hd
    · exact natDigits_lt_ten f d hd
    · rw [List.eq_of_mem_replicate hd]; norm_num
  have h2 : (natDigits f ++ List.replicate (e - (natDigits f).length) 0).map
      (charDigit ∘ Nat.digitChar) =
      natDigits f ++ List.replicate (e - (natDigits f).length) 0 := by
    refine (List.map_congr_left ?_).trans (List.map_id _)
    exact fun d hd => charDigit_digitChar d (hlt d hd)
  rw [h2, digitsToNat_append_zeros, digitsToNat_natDigits]

/-- The smallest decimal exponent `e` with `den ∣ 10 ^ e`, when one exists
(it does for every denominator of a binary floating-point value). -/
def decExp (d : ℕ) : Option ℕ :=
  (List.range (d + 1)).find? (fun e => 10 ^ e % d == 0)

/-- Decimal display of the non-negative rational `num / den`, using the
decimal exponent of `den`. -/
def encUnsigned (num den : ℕ) : List Char :=
  let e := (decExp den).getD 0
  let n := num * 10 ^ e / den
  if e = 0 then natStr n
  else natStr (n / 10 ^ e) ++ '.' :: fracStr (n % 10 ^ e) e

/-- Decimal display of a rational cell value, as `to_csv` prints a float:
optional minus sign, integer part, optional fractional part. -/
def encNum (q : ℚ) : List Char :=
  if q < 0 then '-' :: encUnsigned q.num.natAbs q.den
  else encUnsigned q.num.natAbs q.den

/-- CSV cell bytes: empty for a missing value. -/
def encCell : Cell → List Char
  | none => []
  | some q => encNum q

/-- `read_csv` number parsing, unsigned part: digits with an optional
single decimal point. -/
def parseUnsigned (cs : List Char) : Option ℚ :=
  match splitSep '.' cs with
  | [ds] => (digitsVal ds).map (fun n => (n : ℚ))
  | [ds, fs] =>
      match digitsVal ds, digitsVal fs with
      | some i, some f => some ((i : ℚ) + (f : ℚ) / (10 ^ fs.length : ℚ))
      | _, _ => none
  | _ => none

/-- `read_csv` number parsing: optional leading minus sign. -/
def parseNum : List Char → Option ℚ
  | [] => none
  | c :: cs => if c = '-' then (parseUnsigned cs).map (fun q => -q) else parseUnsigned (c :: cs)

/-- `read_csv` cell parsing: an empty cell is a missing value. -/
def parseCell (cs : List Char) : Option Cell :=
  if cs = [] then some none else (parseNum cs).map some

/-- A cell value with a finite decimal expansion (every floating-point
value has one); the hypothesis under which the export is exact. -/
def cellDec : Cell → Bool
  | none => true
  | some q => (decExp q.den).isSome

theorem decExp_spec (d e : ℕ) (h : decExp d = some e) : 10 ^ e % d = 0 := by
  have := List.find?_some h
  simpa using this

theorem natStr_head_digit (n : ℕ) :
    ∃ c cs, natStr n = c :: cs ∧ c.isDigit = true := by
  match h : natStr n with
  | [] => exact absurd h (natStr_ne_nil n)
  | c :: cs =>
      exact ⟨c, cs, rfl, natStr_chars n c (h ▸ List.mem_cons_self c cs)⟩

theorem parseNum_cons (c : Char) (cs : List Char) :
    parseNum (c :: cs) =
      if c = '-' then (parseUnsigned cs).map (fun q => -q) else parseUnsigned (c :: cs) := rfl

theorem parseUnsigned_eq_one (cs ds : List Char) (h : splitSep '.' cs = [ds]) :
    parseUnsigned cs = (digitsVal ds).map (fun n => (n : ℚ)) := by
  unfold parseUnsigned
  rw [h]

theorem parseUnsigned_eq_two (cs ds fs : List Char) (i f : ℕ)
    (h : splitSep '.' cs = [ds, fs]) (hd : digitsVal ds = some i)
    (hf : digitsVal fs = some f) :
    parseUnsigned cs = some ((i : ℚ) + (f : ℚ) / (10 ^ fs.length : ℚ)) := by
  unfold parseUnsigned
  rw [h]
  simp only [hd, hf]

theorem parseUnsigned_encUnsigned (num den : ℕ) (hden : den ≠ 0) (e : ℕ)
    (he : decExp den = some e) :
    parseUnsigned (encUnsigned num den) = some ((num : ℚ) / (den : ℚ)) := by
  have hdvd : den ∣ 10 ^ e := Nat.dvd_of_mod_eq_zero (decExp_spec den e he)
  have hdenQ : ((den : ℚ)) ≠ 0 := Nat.cast_ne_zero.mpr hden
  have hn : ((num * 10 ^ e / den : ℕ) : ℚ) = (num : ℚ) * 10 ^ e / (den : ℚ) := by
    have hmul : num * 10 ^ e / den * den = num * 10 ^ e :=
      Nat.div_mul_cancel (hdvd.mul_left num)
    have := congrArg (fun k : ℕ => ((k : ℕ) : ℚ)) hmul
    push_cast at this
    field_simp
    linarith [this]
  unfold encUnsigned
  rw [he]
  simp only [Option.getD_some]
  by_cases he0 : e = 0
  · subst he0
    rw [if_pos rfl]
    have hden1 : den = 1 := Nat.dvd_one.mp (by simpa using hdvd)
    subst hden1
    have hnum : num * 10 ^ 0 / 1 = num := by simp
    rw [hnum]
    rw [parseUnsigned_eq_one _ (natStr num)
      (splitSep_of_not_mem '.' (natStr num) (fun hc => by
        have := natStr_chars num '.' hc
        exact absurd this (by decide)))]
    rw [digitsVal_natStr]
    simp
  · rw [if_neg he0]
    set n := num * 10 ^ e / den with hndef
    have hpow : (0:ℕ) < 10 ^ e := Nat.pos_pow_of_pos e (by norm_num)
    have hFlt : n % 10 ^ e < 10 ^ e := Nat.mod_lt n hpow
    have hsplit : splitSep '.' (natStr (n / 10 ^ e) ++ '.' :: fracStr (n % 10 ^ e) e) =
        [natStr (n / 10 ^ e), fracStr (n % 10 ^ e) e] := by
      rw [splitSep_append '.' _ _ (fun hc => by
        have := natStr_chars (n / 10 ^ e) '.' hc
        exact absurd this (by decide))]
      rw [splitSep_of_not_mem '.' _ (fun hc => by
        have := fracStr_chars (n % 10 ^ e) e '.' hc
        exact absurd this (by decide))]
    rw [parseUnsigned_eq_two _ _ _ (n / 10 ^ e) (n % 10 ^ e) hsplit
      (digitsVal_natStr _) (digitsVal_fracStr (n % 10 ^ e) e hFlt he0)]
    rw [fracStr_length (n % 10 ^ e) e hFlt]
    have hrec : ((n / 10 ^ e : ℕ) : ℚ) + ((n % 10 ^ e : ℕ) : ℚ) / (10 ^ e : ℚ) =
        (num : ℚ) / (den : ℚ) := by
      have hdm : (10 ^ e) * (n / 10 ^ e) + n % 10 ^ e = n := Nat.div_add_mod n (10 ^ e)
      have hcast := congrArg (fun k : ℕ => ((k : ℕ) : ℚ)) hdm
      push_cast at hcast
      have hnmul : ((n : ℕ) : ℚ) * (den : ℚ) = (num : ℚ) * 10 ^ e := by
        have hmul : num * 10 ^ e / den * den = num * 10 ^ e :=
          Nat.div_mul_cancel (hdvd.mul_left num)
        rw [hndef]
        exact_mod_cast congrArg (fun k : ℕ => ((k : ℕ) : ℚ)) hmul
      have hpowQ : ((10:ℚ) ^ e) ≠ 0 := by positivity
      field_simp
      linear_combination (den : ℚ) * hcast + hnmul
    rw [hrec]

theorem parseNum_encNum (q : ℚ) (h : cellDec (some q) = true) :
    parseNum (encNum q) = some q := by
  have hden : q.den ≠ 0 := q.den_nz
  obtain ⟨e, he⟩ : ∃ e, decExp q.den = some e := by
    unfold cellDec at h
    exact Option.isSome_iff_exists.mp h
  by_cases hq : q < 0
  · unfold encNum
    rw [if_pos hq]
    rw [parseNum_cons, if_pos rfl]
    rw [parseUnsigned_encUnsigned q.num.natAbs q.den hden e he]
    have hnum : ((q.num.natAbs : ℕ) : ℚ) = -((q.num : ℤ) : ℚ) := by
      have h1 : q.num ≤ 0 := le_of_lt (Rat.num_neg.mpr hq)
      rw [Int.cast_natAbs]
      exact_mod_cast congrArg (fun k : ℤ => ((k : ℤ) : ℚ)) (abs_of_nonpos h1)
    simp only [Option.map_some']
    congr 1
    rw [hnum, neg_div, neg_neg]
    exact Rat.num_div_den q
  · unfold encNum
    rw [if_neg hq]
    obtain ⟨c, cs, hcons, hdig⟩ :
        ∃ c cs, encUnsigned q.num.natAbs q.den = c :: cs ∧ c.isDigit = true := by
      unfold encUnsigned
      rw [he]
      simp only [Option.getD_some]
      by_cases he0 : e = 0
      · rw [if_pos he0]
        exact natStr_head_digit _
      · rw [if_neg he0]
        obtain ⟨c, cs, hcs, hdg⟩ := natStr_head_digit (q.num.natAbs * 10 ^ e / q.den / 10 ^ e)
        exact ⟨c, cs ++ '.' :: fracStr (q.num.natAbs * 10 ^ e / q.den % 10 ^ e) e,
          by rw [hcs]; rfl, hdg⟩
    rw [hcons, parseNum_cons,
      if_neg (fun hc => by rw [hc] at hdig; exact absurd hdig (by decide))]
    rw [← hcons, parseUnsigned_encUnsigned q.num.natAbs q.den hden e he]
    have hnum : ((q.num.natAbs : ℕ) : ℚ) = ((q.num : ℤ) : ℚ) := by
      have h1 : 0 ≤ q.num := Rat.num_nonneg.mpr (le_of_not_lt hq)
      rw [Int.cast_natAbs]
      exact_mod_cast congrArg (fun k : ℤ => ((k : ℤ) : ℚ)) (abs_of_nonneg h1)
    rw [hnum]
    rw [Rat.num_div_den q]

theorem parseCell_encCell (c : Cell) (h : cellDec c = true) :
    parseCell (encCell c) = some c := by
  match c with
  | none => rfl
  | some q =>
      unfold parseCell encCell
      have hne : encNum q ≠ [] := by
        unfold encNum encUnsigned
        by_cases hq : q < 0
        · rw [if_pos hq]; simp
        · rw [if_neg hq]
          simp only []
          by_cases he0 : (decExp q.den).getD 0 = 0
          · rw [if_pos he0]; exact natStr_ne_nil _
          · rw [if_neg he0]
            intro hcontra
            exact natStr_ne_nil _ (List.append_eq_nil.mp hcontra).1
      rw [if_neg hne, parseNum_encNum q h]
      rfl

/-- The cells of one row in CSV column order (`Id` last, when present). -/
def cellsOf (hasId : Bool) (r : Row) : List Cell :=
  [r.fixed_acidity, r.volatile_acidity, r.citric_acid, r.residual_sugar,
   r.chlorides, r.free_sulfur_dioxide, r.total_sulfur_dioxide, r.density,
   r.pH, r.sulphates, r.alcohol, r.quality] ++ (if hasId then [r.id] else [])

/-- One CSV data line: comma-separated encoded cells. -/
def rowLine (hasId : Bool) (r : Row) : List Char :=
  joinSep ',' ((cellsOf hasId r).map encCell)

/-- The CSV header names, in column order. -/
def headerNames (hasId : Bool) : List (List Char) :=
  ["fixed acidity".toList, "volatile acidity".toList, "citric acid".toList,
   "residual sugar".toList, "chlorides".toList, "free sulfur dioxide".toList,
   "total sulfur dioxide".toList, "density".toList, "pH".toList,
   "sulphates".toList, "alcohol".toList, "quality".toList] ++
  (if hasId then ["Id".toList] else [])

/-- The CSV header line. -/
def headerLine (hasId : Bool) : List Char := joinSep ',' (headerNames hasId)

/-- The byte stream of `to_csv(index=False)`: newline-terminated header
line then one newline-terminated line per row (line 241). -/
def toCsv (df : DataFrame) : List Char :=
  linesJoin (headerLine df.hasId :: df.rows.map (rowLine df.hasId))

/-- `read_csv` on one data line: split at commas, one cell per schema
column. -/
def parseRowLine : Bool → List Char → Option Row
  | true, line =>
      match splitSep ',' line with
      | [c1, c2, c3, c4, c5, c6, c7, c8, c9, c10, c11, c12, c13] => do
          let fa ← parseCell c1
          let va ← parseCell c2
          let ca ← parseCell c3
          let rs ← parseCell c4
          let chl ← parseCell c5
          let fsd ← parseCell c6
          let tsd ← parseCell c7
          let de ← parseCell c8
          let ph ← parseCell c9
          let su ← parseCell c10
          let al ← parseCell c11
          let qu ← parseCell c12
          let idv ← parseCell c13
          some ⟨fa, va, ca, rs, chl, fsd, tsd, de, ph, su, al, qu, idv⟩
      | _ => none
  | false, line =>
      match splitSep ',' line with
      | [c1, c2, c3, c4, c5, c6, c7, c8, c9, c10, c11, c12] => do
          let fa ← parseCell c1
          let va ← parseCell c2
          let ca ← parseCell c3
          let rs ← parseCell c4
          let chl ← parseCell c5
          let fsd ← parseCell c6
          let tsd ← parseCell c7
          let de ← parseCell c8
          let ph ← parseCell c9
          let su ← parseCell c10
          let al ← parseCell c11
          let qu ← parseCell c12
          some ⟨fa, va, ca, rs, chl, fsd, tsd, de, ph, su, al, qu, none⟩
      | _ => none

/-- `read_csv` on the data lines. -/
def parseRows (hasId : Bool) : List (List Char) → Option (List Row)
  | [] => some []
  | l :: ls =>
      match parseRowLine hasId l, parseRows hasId ls with
      | some r, some rs => some (r :: rs)
      | _, _ => none

/-- `read_csv` on the whole byte stream: split into lines, skip blank
lines, recognise the header, parse the data rows. -/
def parseCsv (cs : List Char) : Option DataFrame :=
  match splitSep (Char.ofNat 10) cs with
  | [] => none
  | hdr :: rest =>
      let body := rest.filter (fun l => !l.isEmpty)
      if hdr = headerLine true then
        (parseRows true body).map (fun rs => (⟨rs, true⟩ : DataFrame))
      else if hdr = headerLine false then
        (parseRows false body).map (fun rs => (⟨rs, false⟩ : DataFrame))
      else none

/-- All cells of a row have finite decimal expansions. -/
def rowDec (r : Row) : Bool := (cellsOf true r).all cellDec

theorem encUnsigned_chars (num den : ℕ) (ch : Char) (h : ch ∈ encUnsigned num den) :
    ch.isDigit = true ∨ ch = '.' := by
  unfold encUnsigned at h
  by_cases he0 : (decExp den).getD 0 = 0
  · rw [if_pos he0] at h
    exact Or.inl (natStr_chars _ ch h)
  · rw [if_neg he0] at h
    rcases List.mem_append.mp h with h | h
    · exact Or.inl (natStr_chars _ ch h)
    · rcases List.mem_cons.mp h with rfl | h
      · exact Or.inr rfl
      · exact Or.inl (fracStr_chars _ _ ch h)

theorem encCell_chars (c : Cell) (ch : Char) (h : ch ∈ encCell c) :
    ch.isDigit = true ∨ ch = '-' ∨ ch = '.' := by
  match c with
  | none => simp [encCell] at h
  | some q =>
      rw [show encCell (some q) = encNum q from rfl] at h
      unfold encNum at h
      by_cases hq : q < 0
      · rw [if_pos hq] at h
        rcases List.mem_cons.mp h with rfl | h
        · exact Or.inr (Or.inl rfl)
        · rcases encUnsigned_chars _ _ ch h with h | h
          · exact Or.inl h
          · exact Or.inr (Or.inr h)
      · rw [if_neg hq] at h
        rcases encUnsigned_chars _ _ ch h with h | h
        · exact Or.inl h
        · exact Or.inr (Or.inr h)

theorem encCell_ne_sep (c : Cell) (ch : Char) (h : ch ∈ encCell c) :
    ch ≠ ',' ∧ ch ≠ Char.ofNat 10 := by
  rcases encCell_chars c ch h with hd | rfl | rfl
  · constructor
    · intro hc; rw [hc] at hd; exact absurd hd (by decide)
    · intro hc; rw [hc] at hd; exact absurd hd (by decide)
  · exact ⟨by decide, by decide⟩
  · exact ⟨by decide, by decide⟩

theorem rowLine_no_newline (hasId : Bool) (r : Row) :
    Char.ofNat 10 ∉ rowLine hasId r := by
  intro h
  rcases mem_joinSep ',' _ _ h with h | ⟨x, hx, hch⟩
  · exact absurd h.symm (by decide)
  · obtain ⟨c, _, rfl⟩ := List.mem_map.mp hx
    exact (encCell_ne_sep c _ hch).2 rfl

theorem comma_not_mem_encCell (c : Cell) : ',' ∉ encCell c :=
  fun h => (encCell_ne_sep c ',' h).1 rfl

theorem splitSep_rowLine (r : Row) :
    splitSep ',' (rowLine true r) =
      [encCell r.fixed_acidity, encCell r.volatile_acidity, encCell r.citric_acid,
       encCell r.residual_sugar, encCell r.chlorides, encCell r.free_sulfur_dioxide,
       encCell r.total_sulfur_dioxide, encCell r.density, encCell r.pH,
       encCell r.sulphates, encCell r.alcohol, encCell r.quality, encCell r.id] := by
  have h := splitSep_joinSep ',' ((cellsOf true r).map encCell)
    (by simp [cellsOf])
    (fun x hx => by
      obtain ⟨c, _, rfl⟩ := List.mem_map.mp hx
      exact comma_not_mem_encCell c)
  exact h

theorem rowLine_ne_nil (r : Row) : rowLine true r ≠ [] := by
  intro h
  have h2 := splitSep_rowLine r
  rw [h] at h2
  have h3 := congrArg List.length h2
  simp [splitSep] at h3

theorem parseRowLine_rowLine (r : Row) (h : rowDec r = true) :
    parseRowLine true (rowLine true r) = some r := by
  unfold rowDec cellsOf at h
  simp only [List.all_append, List.all_cons, List.all_nil, Bool.and_eq_true,
    if_true, List.all_eq_true] at h
  obtain ⟨⟨h1, h2, h3, h4, h5, h6, h7, h8, h9, h10, h11, h12, _⟩, h13⟩ := h
  have h13' : cellDec r.id = true := h13.1
  show (match splitSep ',' (rowLine true r) with
    | [c1, c2, c3, c4, c5, c6, c7, c8, c9, c10, c11, c12, c13] => do
        let fa ← parseCell c1
        let va ← parseCell c2
        let ca ← parseCell c3
        let rs ← parseCell c4
        let chl ← parseCell c5
        let fsd ← parseCell c6
        let tsd ← parseCell c7
        let de ← parseCell c8
        let ph ← parseCell c9
        let su ← parseCell c10
        let al ← parseCell c11
        let qu ← parseCell c12
        let idv ← parseCell c13
        some (⟨fa, va, ca, rs, chl, fsd, tsd, de, ph, su, al, qu, idv⟩ : Row)
    | _ => none) = some r
  rw [splitSep_rowLine r]
  simp only [parseCell_encCell _ h1, parseCell_encCell _ h2, parseCell_encCell _ h3,
    parseCell_encCell _ h4, parseCell_encCell _ h5, parseCell_encCell _ h6,
    parseCell_encCell _ h7, parseCell_encCell _ h8, parseCell_encCell _ h9,
    parseCell_encCell _ h10, parseCell_encCell _ h11, parseCell_encCell _ h12,
    parseCell_encCell _ h13']
  rfl

theorem parseRows_map_rowLine (rows : List Row) (h : ∀ r ∈ rows, rowDec r = true) :
    parseRows true (rows.map (rowLine true)) = some rows := by
  induction rows with
  | nil => rfl
  | cons r rs ih =>
      show (match parseRowLine true (rowLine true r),
              parseRows true (rs.map (rowLine true)) with
        | some r, some rs => some (r :: rs)
        | _, _ => none) = some (r :: rs)
      rw [parseRowLine_rowLine r (h r (List.mem_cons_self r rs)),
        ih (fun x hx => h x (List.mem_cons_of_mem r hx))]

theorem parseCsv_eq (cs : List Char) (hdr : List Char) (rest : List (List Char))
    (h : splitSep (Char.ofNat 10) cs = hdr :: rest) :
    parseCsv cs =
      (if hdr = headerLine true then
        (parseRows true (rest.filter (fun l => !l.isEmpty))).map
          (fun rs => (⟨rs, true⟩ : DataFrame))
      else if hdr = headerLine false then
        (parseRows false (rest.filter (fun l => !l.isEmpty))).map
          (fun rs => (⟨rs, false⟩ : DataFrame))
      else none) := by
  unfold parseCsv
  rw [h]

/-- C7: parsing the CSV byte stream produced by the download action
reproduces exactly the Filtered Dataset: the same rows in the same order,
the same columns (`Id` present) and the same cell values, under the
floating-point faithfulness hypothesis that every cell value has a finite
decimal expansion. -/
theorem csv_roundtrip (df : DataFrame) (hId : df.hasId = true)
    (hdec : ∀ r ∈ df.rows, rowDec r = true) :
    parseCsv (toCsv df) = some df := by
  obtain ⟨rows, hasId⟩ := df
  simp only [] at hId
  subst hId
  have hnl : ∀ l ∈ headerLine true :: rows.map (rowLine true), Char.ofNat 10 ∉ l := by
    intro l hl
    rcases List.mem_cons.mp hl with rfl | hl
    · decide
    · obtain ⟨r, _, rfl⟩ := List.mem_map.mp hl
      exact rowLine_no_newline true r
  have hsplit : splitSep (Char.ofNat 10) (toCsv ⟨rows, true⟩) =
      headerLine true :: (rows.map (rowLine true) ++ [[]]) := by
    show splitSep (Char.ofNat 10)
        (linesJoin (headerLine true :: rows.map (rowLine true))) = _
    rw [splitSep_linesJoin _ hnl]
    rfl
  rw [parseCsv_eq _ _ _ hsplit, if_pos rfl]
  have hfilter : (rows.map (rowLine true) ++ [[]]).filter (fun l => !l.isEmpty) =
      rows.map (rowLine true) := by
    rw [List.filter_append]
    have h1 : (rows.map (rowLine true)).filter (fun l => !l.isEmpty) =
        rows.map (rowLine true) := by
      rw [List.filter_eq_self]
      intro l hl
      obtain ⟨r, _, rfl⟩ := List.mem_map.mp hl
      have := rowLine_ne_nil r
      simp [List.isEmpty_iff]
      exact this
    rw [h1]
    simp
  rw [hfilter, parseRows_map_rowLine rows (by
    intro r hr
    exact hdec r (by simpa using hr))]
  rfl

/-- C7 witness data: the checked hypotheses and conclusion of the round
trip at the concrete frame `wDF`. -/
theorem csv_roundtrip_witness :
    wDF.hasId = true ∧ (∀ r ∈ wDF.rows, rowDec r = true) ∧
      parseCsv (toCsv wDF) = some wDF :=
  ⟨rfl, by decide, csv_roundtrip wDF rfl (by decide)⟩

end WineApp
